import Mathlib

/-!
Shallow embedding of the aggregation and derivation engine of
src/docs/experement_analysis.py.

Modelling conventions:
* Python strings are modelled as List Char.
* Python floats are idealised as exact rational numbers, represented by the
  executable normalised-pair type PyRat below (kept kernel-reducible so that
  every concrete run of the model evaluates by decide).
* numpy arrays are modelled as lists; np.nan used as the missing-GA sentinel
  is modelled as Option.none.
* A raised, uncaught exception (IndexError / ValueError during sorting or the
  per-configuration loop, numpy shape mismatch in the ratio computation) is
  modelled as Option.none at the level of the whole computation.
* The builtins int() and float() are modelled for optionally signed,
  whitespace-stripped decimal literals (int: sign and digits; float: sign and
  digits with an optional single decimal point).  Exotic accepted forms
  (underscore grouping, exponents, inf/nan, non-ASCII digits) are outside the
  scope of this model.
-/

/-- Exact rational number in lowest terms with positive denominator,
idealising a Python float. -/
structure PyRat where
  n : Int
  d : Int
deriving DecidableEq

/-- Normalising constructor: reduce by the gcd and make the denominator
positive.  A zero denominator (which for the engine can only arise from the
division-by-zero convention of qDiv) yields 0. -/
def mkQ (n d : Int) : PyRat :=
  if d = 0 then ⟨0, 1⟩
  else
    let g : Int := (Int.gcd n d : Nat)
    if d < 0 then ⟨-(n / g), -(d / g)⟩ else ⟨n / g, d / g⟩

/-- Addition of exact rationals. -/
def qAdd (a b : PyRat) : PyRat := mkQ (a.n * b.d + b.n * a.d) (a.d * b.d)

/-- Multiplication of exact rationals. -/
def qMul (a b : PyRat) : PyRat := mkQ (a.n * b.n) (a.d * b.d)

/-- Negation of an exact rational. -/
def qNeg (a : PyRat) : PyRat := mkQ (-a.n) a.d

/-- Division of exact rationals, with the q / 0 = 0 convention (the engine
never divides by zero on the inputs the claims quantify over). -/
def qDiv (a b : PyRat) : PyRat := mkQ (a.n * b.d) (a.d * b.n)

/-- Comparison of exact rationals by cross multiplication (denominators are
positive for every value the model builds). -/
def qLe (a b : PyRat) : Prop := a.n * b.d ≤ b.n * a.d

instance : DecidablePred fun p : PyRat × PyRat => qLe p.1 p.2 :=
  fun p => inferInstanceAs (Decidable (p.1.n * p.2.d ≤ p.2.n * p.1.d))

instance (a b : PyRat) : Decidable (qLe a b) :=
  inferInstanceAs (Decidable (a.n * b.d ≤ b.n * a.d))

instance : Add PyRat := ⟨qAdd⟩
instance : Mul PyRat := ⟨qMul⟩
instance : Neg PyRat := ⟨qNeg⟩
instance : Div PyRat := ⟨qDiv⟩
instance (n : Nat) : OfNat PyRat n := ⟨⟨(n : Int), 1⟩⟩
instance : NatCast PyRat := ⟨fun n => ⟨(n : Int), 1⟩⟩
instance : IntCast PyRat := ⟨fun i => ⟨i, 1⟩⟩
instance : Min PyRat := ⟨fun a b => if qLe a b then a else b⟩
instance : Max PyRat := ⟨fun a b => if qLe a b then b else a⟩

/-- Natural power of an exact rational. -/
def qPow (q : PyRat) : Nat → PyRat
  | 0 => 1
  | k + 1 => q * qPow q k

instance : Pow PyRat Nat := ⟨qPow⟩

/-- ASCII whitespace as stripped and split on by str.strip and str.split in
the inputs this model covers. -/
def isSpaceCh (c : Char) : Bool := c = ' ' || c = '\t' || c = '\n' || c = '\r'

/-- ASCII digit test. -/
def isDigitCh (c : Char) : Bool := '0' ≤ c && c ≤ '9'

/-- Numeric value of a digit string, most significant digit first. -/
def digitsToNat (l : List Char) : Nat :=
  l.foldl (fun acc c => acc * 10 + (c.toNat - '0'.toNat)) 0

/-- Parse a non-empty all-digit string; none otherwise. -/
def digitsVal? (l : List Char) : Option Nat :=
  if !l.isEmpty && l.all isDigitCh then some (digitsToNat l) else none

/-- Model of str.strip(): drop leading and trailing whitespace. -/
def stripWs (l : List Char) : List Char :=
  ((l.dropWhile isSpaceCh).reverse.dropWhile isSpaceCh).reverse

/-- Model of str.split(sep) with a one-character separator: split at every
occurrence, keeping empty pieces; the empty string yields one empty piece. -/
def pySplitCh (sep : Char) : List Char → List (List Char)
  | [] => [[]]
  | c :: rest =>
    if c = sep then [] :: pySplitCh sep rest
    else
      match pySplitCh sep rest with
      | [] => [[c]]
      | x :: xs => (c :: x) :: xs

/-- Model of str.split(sep, 1): the part before the first separator, and the
remainder after it when the separator occurs at all. -/
def pySplit1 (sep : Char) : List Char → List Char × Option (List Char)
  | [] => ([], none)
  | c :: rest =>
    if c = sep then ([], some rest)
    else
      let r := pySplit1 sep rest
      (c :: r.1, r.2)

/-- Accumulator-based worker for pySplitWs. -/
def pySplitWsAux : List Char → List Char → List (List Char)
  | [], acc => if acc.isEmpty then [] else [acc.reverse]
  | c :: rest, acc =>
    if isSpaceCh c then
      if acc.isEmpty then pySplitWsAux rest []
      else acc.reverse :: pySplitWsAux rest []
    else pySplitWsAux rest (c :: acc)

/-- Model of str.split() with no argument: split on runs of whitespace,
discarding empty pieces. -/
def pySplitWs (l : List Char) : List (List Char) := pySplitWsAux l []

/-- Model of int(s) for optionally signed decimal digit strings surrounded by
whitespace; none when Python would raise ValueError. -/
def pyInt (l : List Char) : Option Int :=
  match stripWs l with
  | [] => none
  | c :: rest =>
    if c = '-' then (digitsVal? rest).map (fun n => -(n : Int))
    else if c = '+' then (digitsVal? rest).map (fun n => (n : Int))
    else (digitsVal? (c :: rest)).map (fun n => (n : Int))

/-- Unsigned part of float(s): digits with an optional single decimal point,
at least one digit overall. -/
def pyFloatCore (l : List Char) : Option PyRat :=
  match pySplit1 '.' l with
  | (a, none) => (digitsVal? a).map (fun n => (n : PyRat))
  | (a, some b) =>
    if (a.all isDigitCh && b.all isDigitCh) && !(a.isEmpty && b.isEmpty) then
      some ((digitsToNat a : PyRat) + (digitsToNat b : PyRat) / (10 : PyRat) ^ b.length)
    else none

/-- Model of float(s) for optionally signed decimal literals surrounded by
whitespace; none when Python would raise ValueError. -/
def pyFloat (l : List Char) : Option PyRat :=
  match stripWs l with
  | [] => none
  | c :: rest =>
    if c = '-' then (pyFloatCore rest).map (fun q => -q)
    else if c = '+' then pyFloatCore rest
    else pyFloatCore (c :: rest)

/-- A JSON field value as seen by time_to_seconds: either a Python str or any
non-string value (the isinstance check fails). -/
inductive PyVal where
  | str (s : List Char)
  | nonStr
deriving DecidableEq

/-- Model of time_to_seconds: split on colons into exactly three fields,
split the third on the first dot (milliseconds defaulting to "0"), and
return hours*3600 + minutes*60 + seconds + 0.milliseconds; every failure
path of the Python try/except (wrong field count, non-numeric component) and
the non-string guard return 0, so the parser never raises. -/
def time_to_seconds : PyVal → PyRat
  | PyVal.nonStr => 0
  | PyVal.str t =>
    match pySplitCh ':' t with
    | [h, m, s0] =>
      let sp := pySplitCh '.' s0
      let s := sp.headD []
      let ms := (sp.drop 1).headD ['0']
      match pyInt h, pyInt m, pyFloat s, pyFloat ('0' :: '.' :: ms) with
      | some hv, some mv, some sv, some msv =>
        (hv : PyRat) * 3600 + (mv : PyRat) * 60 + sv + msv
      | _, _, _, _ => 0
    | _ => 0

/-- One entry of the Experiments array, with the fields the engine reads. -/
structure ExperimentRecord where
  configuration : List Char
  algorithmType : List Char
  makespan : PyRat
  computationTime : PyVal
  taskCount : Nat
deriving DecidableEq

/-- The AlgorithmType tag routed into the PSO trial list. -/
def algPso : List Char := "Pso".toList

/-- The AlgorithmType tag routed into the GA slot. -/
def algGenetic : List Char := "Genetic".toList

/-- The per-configuration bucket: the PSO trial list and the GA slot,
mirroring the Python dict value {'PSO': [...], 'GA': ...}. -/
structure ConfigGroup where
  pso : List ExperimentRecord
  ga : Option ExperimentRecord
deriving DecidableEq

/-- Route one record into a bucket: append PSO trials, set the GA slot only
when it is still empty, drop any other algorithm type. -/
def applyRecord (e : ExperimentRecord) (g : ConfigGroup) : ConfigGroup :=
  if e.algorithmType = algPso then { g with pso := g.pso ++ [e] }
  else if e.algorithmType = algGenetic ∧ g.ga = none then { g with ga := some e }
  else g

/-- Insert one record into the insertion-ordered configuration map, creating
the bucket on first contact with a configuration (the Python dict preserves
insertion order of keys and is updated in place). -/
def insertRecord : List (List Char × ConfigGroup) → ExperimentRecord → List (List Char × ConfigGroup)
  | [], e => [(e.configuration, applyRecord e { pso := [], ga := none })]
  | p :: ps, e =>
    if p.1 = e.configuration then (p.1, applyRecord e p.2) :: ps
    else p :: insertRecord ps e

/-- The grouping pass: configs = {} followed by one pass over the records. -/
def groupRecords (records : List ExperimentRecord) : List (List Char × ConfigGroup) :=
  records.foldl insertRecord []

/-- Lookup of a configuration's bucket in the map. -/
def lookupG : List (List Char × ConfigGroup) → List Char → Option ConfigGroup
  | [], _ => none
  | p :: ps, k => if p.1 = k then some p.2 else lookupG ps k

/-- The sort key int(config.split(':')[0].split()[-1]); none models the
IndexError of [-1] on an empty token list or the ValueError of int(). -/
def sortKey (cfg : List Char) : Option Int :=
  match (pySplitWs ((pySplitCh ':' cfg).headD [])).getLast? with
  | none => none
  | some tok => pyInt tok

/-- Total version of sortKey, used once all keys are known to resolve. -/
def sortKeyD (cg : List Char × ConfigGroup) : Int := (sortKey cg.1).getD 0

/-- Stable insertion of an element into a key-sorted list: it lands before
the first element whose key is not smaller. -/
def insertByKey {α : Type} (key : α → Int) (x : α) : List α → List α
  | [] => [x]
  | y :: ys => if key y < key x then y :: insertByKey key x ys else x :: y :: ys

/-- Stable sort by an integer key.  Python's sorted() is stable, and the
output of a stable sort is uniquely determined by the input order and the
keys, so insertion sort is an exact model. -/
def sortByKey {α : Type} (key : α → Int) : List α → List α
  | [] => []
  | x :: xs => insertByKey key x (sortByKey key xs)

/-- sorted(configs.items(), key=...): sorted() evaluates the key of every
item, so one unresolvable key is fatal for the whole call. -/
def sortedConfigs (records : List ExperimentRecord) : Option (List (List Char × ConfigGroup)) :=
  let gs := groupRecords records
  if gs.all (fun cg => (sortKey cg.1).isSome) then some (sortByKey sortKeyD gs)
  else none

/-- The row label built in the loop: the ordinal token, then ": ", then the
post-colon text stripped and truncated to 20 characters; none models the
IndexError of split(':', 1)[1] or of split()[-1]. -/
def rowName (cfg : List Char) : Option (List Char) :=
  match (pySplitWs ((pySplitCh ':' cfg).headD [])).getLast?, (pySplit1 ':' cfg).2 with
  | some num, some post => some (num ++ ':' :: ' ' :: (stripWs post).take 20)
  | _, _ => none

/-- np.mean of a list, idealised over exact rationals. -/
def qMean (l : List PyRat) : PyRat := (l.foldl qAdd 0) / (l.length : PyRat)

/-- Python min() of a list, only applied to non-empty lists in the engine. -/
def qMinL : List PyRat → PyRat
  | [] => 0
  | x :: xs => xs.foldl min x

/-- Python max() of a list, only applied to non-empty lists in the engine. -/
def qMaxL : List PyRat → PyRat
  | [] => 0
  | x :: xs => xs.foldl max x

/-- Truthiness of values['PSO']: the trial list is non-empty. -/
def hasPsoB (cg : List Char × ConfigGroup) : Bool := !cg.2.pso.isEmpty

/-- The makespans of a bucket's PSO trials. -/
def psoMs (cg : List Char × ConfigGroup) : List PyRat := cg.2.pso.map (fun e => e.makespan)

/-- The parsed computation times of a bucket's PSO trials. -/
def psoTs (cg : List Char × ConfigGroup) : List PyRat :=
  cg.2.pso.map (fun e => time_to_seconds e.computationTime)

/-- values['PSO'][0]['TaskCount'], with an unused default for the empty case
that the guard if values['PSO'] rules out. -/
def taskOfD (cg : List Char × ConfigGroup) : Nat :=
  match cg.2.pso with
  | [] => 0
  | e :: _ => e.taskCount

/-- The GA makespan of a bucket, none when the GA slot is empty. -/
def gaMs (cg : List Char × ConfigGroup) : Option PyRat := cg.2.ga.map (fun e => e.makespan)

/-- The parsed GA computation time of a bucket, none when absent. -/
def gaTs (cg : List Char × ConfigGroup) : Option PyRat :=
  cg.2.ga.map (fun e => time_to_seconds e.computationTime)

/-- The ten parallel output lists built by the preparation loop. -/
structure Prepared where
  config_names : List (List Char)
  pso_avg_makespan : List PyRat
  pso_min_makespan : List PyRat
  pso_max_makespan : List PyRat
  ga_makespan : List (Option PyRat)
  pso_avg_time : List PyRat
  pso_min_time : List PyRat
  pso_max_time : List PyRat
  ga_time : List (Option PyRat)
  task_counts : List Nat
deriving DecidableEq

/-- The initial empty output lists. -/
def emptyPrepared : Prepared :=
  { config_names := [], pso_avg_makespan := [], pso_min_makespan := []
    pso_max_makespan := [], ga_makespan := [], pso_avg_time := []
    pso_min_time := [], pso_max_time := [], ga_time := [], task_counts := [] }

/-- One iteration of the preparation loop over a sorted configuration:
build the label (fatal when the key has no colon), append PSO statistics and
the task count only when the trial list is non-empty, and always append the
GA makespan and time (the missing marker when the GA slot is empty). -/
def prepareStep (p : Prepared) (cg : List Char × ConfigGroup) : Option Prepared :=
  match rowName cg.1 with
  | none => none
  | some nm =>
    let p1 := { p with config_names := p.config_names ++ [nm] }
    let p2 :=
      if hasPsoB cg then
        { p1 with
          pso_avg_makespan := p1.pso_avg_makespan ++ [qMean (psoMs cg)]
          pso_min_makespan := p1.pso_min_makespan ++ [qMinL (psoMs cg)]
          pso_max_makespan := p1.pso_max_makespan ++ [qMaxL (psoMs cg)]
          pso_avg_time := p1.pso_avg_time ++ [qMean (psoTs cg)]
          pso_min_time := p1.pso_min_time ++ [qMinL (psoTs cg)]
          pso_max_time := p1.pso_max_time ++ [qMaxL (psoTs cg)]
          task_counts := p1.task_counts ++ [taskOfD cg] }
      else p1
    match cg.2.ga with
    | some e =>
      some { p2 with
        ga_makespan := p2.ga_makespan ++ [some e.makespan]
        ga_time := p2.ga_time ++ [some (time_to_seconds e.computationTime)] }
    | none =>
      some { p2 with
        ga_makespan := p2.ga_makespan ++ [none]
        ga_time := p2.ga_time ++ [none] }

/-- The pipeline from the record list to the prepared output lists: group,
sort by ordinal, then run the preparation loop; none models an uncaught
exception. -/
def prepare (records : List ExperimentRecord) : Option Prepared :=
  (sortedConfigs records).bind (fun gs => List.foldlM prepareStep emptyPrepared gs)

/-- The quality-ratio series: numpy boolean masking of the PSO-mean and GA
arrays by the not-nan mask of the GA array, followed by elementwise division;
none models the IndexError numpy raises when the mask length differs from the
masked array length. -/
def ratioSeries (p : Prepared) : Option (List PyRat) :=
  if p.pso_avg_makespan.length = p.ga_makespan.length then
    some ((p.pso_avg_makespan.zip p.ga_makespan).filterMap
      (fun pr => pr.2.map (fun g => pr.1 / g)))
  else none

/-- Index of the first occurrence of a value in the task-count list. -/
def firstIdx (v : Nat) : List Nat → Nat
  | [] => 0
  | x :: xs => if x = v then 0 else firstIdx v xs + 1

/-- Ascending sort of a list of natural numbers, as np.unique orders the
distinct values it returns. -/
def natSorted (l : List Nat) : List Nat := sortByKey (fun n => (n : Int)) l

/-- The task-count series: np.unique(task_counts, return_index=True) yields
the sorted distinct task counts and the index of each one's first occurrence,
and those indices select entries of the task-count, PSO-mean and GA arrays. -/
def taskSeries (p : Prepared) : List (Nat × PyRat × Option PyRat) :=
  (natSorted p.task_counts.dedup).map (fun v =>
    let i := firstIdx v p.task_counts
    (p.task_counts.getD i 0, p.pso_avg_makespan.getD i 0, p.ga_makespan.getD i none))

example : time_to_seconds (PyVal.str "1:02:03.500".toList) = ⟨7447, 2⟩ := by decide
example : time_to_seconds (PyVal.str "0:00:10".toList) = 10 := by decide
example : time_to_seconds (PyVal.str "abc".toList) = 0 := by decide
example : time_to_seconds (PyVal.str "-1:00:00".toList) = -3600 := by decide
example : time_to_seconds PyVal.nonStr = 0 := by decide

/-! ### Concrete inputs used by witnesses and counterexamples -/

/-- The specification's end-to-end example: two PSO trials and one GA run of
configuration "1: Small". -/
def exSmallR1 : ExperimentRecord :=
  ⟨"1: Small".toList, algPso, 100, PyVal.str "0:00:10".toList, 5⟩

/-- Second PSO trial of the end-to-end example. -/
def exSmallR2 : ExperimentRecord :=
  ⟨"1: Small".toList, algPso, 120, PyVal.str "0:00:12".toList, 5⟩

/-- GA run of the end-to-end example. -/
def exSmallR3 : ExperimentRecord :=
  ⟨"1: Small".toList, algGenetic, 90, PyVal.str "0:00:08".toList, 5⟩

/-- The end-to-end example batch. -/
def exSmall : List ExperimentRecord := [exSmallR1, exSmallR2, exSmallR3]

/-- The sorted configuration list of the end-to-end example. -/
def exSmallGroups : List (List Char × ConfigGroup) :=
  [("1: Small".toList, ⟨[exSmallR1, exSmallR2], some exSmallR3⟩)]

/-- The prepared output of the end-to-end example. -/
def exSmallPrepared : Prepared :=
  { config_names := ["1: Small".toList]
    pso_avg_makespan := [⟨110, 1⟩], pso_min_makespan := [⟨100, 1⟩]
    pso_max_makespan := [⟨120, 1⟩], ga_makespan := [some ⟨90, 1⟩]
    pso_avg_time := [⟨11, 1⟩], pso_min_time := [⟨10, 1⟩], pso_max_time := [⟨12, 1⟩]
    ga_time := [some ⟨8, 1⟩], task_counts := [5] }

/-- A batch whose only record is a GA run: its group has no PSO trial. -/
def exGaOnly : List ExperimentRecord :=
  [⟨"1: A".toList, algGenetic, 50, PyVal.str "0:00:01".toList, 5⟩]

/-- A batch with a GA-only first configuration followed by a full second
configuration: the output lists end up with different lengths. -/
def exMis : List ExperimentRecord :=
  [⟨"1: A".toList, algGenetic, 50, PyVal.str "0:00:01".toList, 7⟩,
   ⟨"2: B".toList, algPso, 100, PyVal.str "0:00:02".toList, 5⟩,
   ⟨"2: B".toList, algGenetic, 90, PyVal.str "0:00:03".toList, 5⟩]

/-- The sorted configuration list of exMis. -/
def exMisGroups : List (List Char × ConfigGroup) :=
  [("1: A".toList,
    ⟨[], some ⟨"1: A".toList, algGenetic, 50, PyVal.str "0:00:01".toList, 7⟩⟩),
   ("2: B".toList,
    ⟨[⟨"2: B".toList, algPso, 100, PyVal.str "0:00:02".toList, 5⟩],
     some ⟨"2: B".toList, algGenetic, 90, PyVal.str "0:00:03".toList, 5⟩⟩)]

/-- Two distinct configurations sharing the ordinal 1. -/
def exDup : List ExperimentRecord :=
  [⟨"1: A".toList, algPso, 10, PyVal.nonStr, 3⟩,
   ⟨"1: B".toList, algPso, 20, PyVal.nonStr, 4⟩]

/-! ### Canonicity of the normalised representation -/

theorem mkQ_zero_den (n : Int) : mkQ n 0 = ⟨0, 1⟩ := by
  unfold mkQ; simp

theorem mkQ_mkQ (n d : Int) : mkQ (mkQ n d).n (mkQ n d).d = mkQ n d := by
  by_cases hd : d = 0
  · subst hd; rw [mkQ_zero_den]; decide
  · have hgpos : 0 < Int.gcd n d := Int.gcd_pos_of_ne_zero_right n hd
    have hgpos' : (0 : Int) < (Int.gcd n d : Int) := by exact_mod_cast hgpos
    have hdvdd : ((Int.gcd n d : Int)) ∣ d := Int.gcd_dvd_right
    have hco : Int.gcd (n / (Int.gcd n d : Int)) (d / (Int.gcd n d : Int)) = 1 :=
      Int.gcd_div_gcd_div_gcd hgpos
    have hdg : d / (Int.gcd n d : Int) * (Int.gcd n d : Int) = d := Int.ediv_mul_cancel hdvdd
    have hdgne : d / (Int.gcd n d : Int) ≠ 0 := by
      intro h0; rw [h0, zero_mul] at hdg; exact hd hdg.symm
    by_cases hneg : d < 0
    · have hmk : mkQ n d = ⟨-(n / (Int.gcd n d : Int)), -(d / (Int.gcd n d : Int))⟩ := by
        unfold mkQ; rw [if_neg hd, if_pos hneg]
      have hdgneg : d / (Int.gcd n d : Int) < 0 := by nlinarith [hdg, hgpos']
      have hco' : Int.gcd (-(n / (Int.gcd n d : Int))) (-(d / (Int.gcd n d : Int))) = 1 := by
        simpa [Int.gcd, Int.natAbs_neg] using hco
      rw [hmk]
      show mkQ (-(n / (Int.gcd n d : Int))) (-(d / (Int.gcd n d : Int))) = _
      unfold mkQ
      rw [if_neg (neg_ne_zero.mpr hdgne), if_neg (by omega : ¬ -(d / (Int.gcd n d : Int)) < 0)]
      rw [hco']
      norm_num
    · have hmk : mkQ n d = ⟨n / (Int.gcd n d : Int), d / (Int.gcd n d : Int)⟩ := by
        unfold mkQ; rw [if_neg hd, if_neg hneg]
      have hdpos : 0 < d := lt_of_le_of_ne (not_lt.mp hneg) (Ne.symm hd)
      have hdgpos : 0 < d / (Int.gcd n d : Int) := by nlinarith [hdg, hgpos']
      rw [hmk]
      show mkQ (n / (Int.gcd n d : Int)) (d / (Int.gcd n d : Int)) = _
      unfold mkQ
      rw [if_neg hdgne, if_neg (by omega : ¬ d / (Int.gcd n d : Int) < 0)]
      rw [hco]
      norm_num

theorem zero_qAdd_mkQ (n d : Int) : (0 : PyRat) + mkQ n d = mkQ n d := by
  show qAdd 0 (mkQ n d) = mkQ n d
  unfold qAdd
  have h0n : (0 : PyRat).n = 0 := rfl
  have h0d : (0 : PyRat).d = 1 := rfl
  rw [h0n, h0d, zero_mul, one_mul, mul_one, zero_add]
  exact mkQ_mkQ n d

theorem qAdd_mkQ_zero (n d : Int) : mkQ n d + (0 : PyRat) = mkQ n d := by
  show qAdd (mkQ n d) 0 = mkQ n d
  unfold qAdd
  have h0n : (0 : PyRat).n = 0 := rfl
  have h0d : (0 : PyRat).d = 1 := rfl
  rw [h0n, h0d, zero_mul, mul_one, mul_one, add_zero]
  exact mkQ_mkQ n d

theorem zero_qAdd_div (a b : PyRat) : (0 : PyRat) + a / b = a / b :=
  zero_qAdd_mkQ (a.n * b.d) (a.d * b.n)

theorem qAdd_qAdd_zero (a b : PyRat) : (a + b) + (0 : PyRat) = a + b :=
  qAdd_mkQ_zero (a.n * b.d + b.n * a.d) (a.d * b.d)

/-! ### Character and splitting lemmas -/

theorem digit_ne (c x : Char) (h : isDigitCh c = true) (hx : isDigitCh x = false) : c ≠ x := by
  intro e; rw [e, hx] at h; cases h

theorem digit_not_space (c : Char) (h : isDigitCh c = true) : isSpaceCh c = false := by
  have h1 : c ≠ ' ' := digit_ne c ' ' h (by decide)
  have h2 : c ≠ '\t' := digit_ne c '\t' h (by decide)
  have h3 : c ≠ '\n' := digit_ne c '\n' h (by decide)
  have h4 : c ≠ '\r' := digit_ne c '\r' h (by decide)
  simp [isSpaceCh, h1, h2, h3, h4]

theorem all_digits_forall (l : List Char) (h : l.all isDigitCh = true) :
    ∀ c ∈ l, isDigitCh c = true := by
  intro c hc; exact List.all_eq_true.mp h c hc

theorem dropWhile_eq_self_of_false {p : Char → Bool} (l : List Char)
    (h : ∀ c ∈ l, p c = false) : l.dropWhile p = l := by
  cases l with
  | nil => rfl
  | cons c cs => simp [List.dropWhile_cons, h c (by simp)]

theorem stripWs_eq_self (l : List Char) (h : ∀ c ∈ l, isSpaceCh c = false) :
    stripWs l = l := by
  unfold stripWs
  rw [dropWhile_eq_self_of_false l h]
  rw [dropWhile_eq_self_of_false l.reverse (fun c hc => h c (List.mem_reverse.mp hc))]
  exact List.reverse_reverse l

theorem pySplitCh_no_sep (sep : Char) (a : List Char) (h : ∀ c ∈ a, c ≠ sep) :
    pySplitCh sep a = [a] := by
  induction a with
  | nil => rfl
  | cons c cs ih =>
    have hc : c ≠ sep := h c (by simp)
    rw [pySplitCh, if_neg hc, ih (fun x hx => h x (by simp [hx]))]

theorem pySplitCh_append (sep : Char) (a r : List Char) (h : ∀ c ∈ a, c ≠ sep) :
    pySplitCh sep (a ++ sep :: r) = a :: pySplitCh sep r := by
  induction a with
  | nil => rw [List.nil_append, pySplitCh, if_pos rfl]
  | cons c cs ih =>
    have hc : c ≠ sep := h c (by simp)
    rw [List.cons_append, pySplitCh, if_neg hc, ih (fun x hx => h x (by simp [hx]))]

theorem pySplit1_no_sep (sep : Char) (a : List Char) (h : ∀ c ∈ a, c ≠ sep) :
    pySplit1 sep a = (a, none) := by
  induction a with
  | nil => rfl
  | cons c cs ih =>
    have hc : c ≠ sep := h c (by simp)
    rw [pySplit1, if_neg hc, ih (fun x hx => h x (by simp [hx]))]

theorem pySplit1_append (sep : Char) (a r : List Char) (h : ∀ c ∈ a, c ≠ sep) :
    pySplit1 sep (a ++ sep :: r) = (a, some r) := by
  induction a with
  | nil => rw [List.nil_append, pySplit1, if_pos rfl]
  | cons c cs ih =>
    have hc : c ≠ sep := h c (by simp)
    rw [List.cons_append, pySplit1, if_neg hc, ih (fun x hx => h x (by simp [hx]))]

/-! ### Evaluation of the numeric parsers on well-formed inputs -/

theorem digitsVal?_digits (l : List Char) (hne : l ≠ []) (hd : l.all isDigitCh = true) :
    digitsVal? l = some (digitsToNat l) := by
  unfold digitsVal?
  rw [if_pos]
  simp [hd, List.isEmpty_iff, hne]

theorem pyInt_digits (l : List Char) (hne : l ≠ []) (hd : l.all isDigitCh = true) :
    pyInt l = some ((digitsToNat l : Int)) := by
  have hns : ∀ c ∈ l, isSpaceCh c = false :=
    fun c hc => digit_not_space c (all_digits_forall l hd c hc)
  obtain ⟨c, rest, rfl⟩ := List.exists_cons_of_ne_nil hne
  have hc : isDigitCh c = true := all_digits_forall _ hd c (by simp)
  simp only [pyInt, stripWs_eq_self _ hns]
  rw [if_neg (digit_ne c '-' hc (by decide)), if_neg (digit_ne c '+' hc (by decide))]
  rw [digitsVal?_digits _ (by simp) hd]
  rfl

theorem pyFloat_digits (l : List Char) (hne : l ≠ []) (hd : l.all isDigitCh = true) :
    pyFloat l = some ((digitsToNat l : PyRat)) := by
  have hns : ∀ c ∈ l, isSpaceCh c = false :=
    fun c hc => digit_not_space c (all_digits_forall l hd c hc)
  obtain ⟨c, rest, rfl⟩ := List.exists_cons_of_ne_nil hne
  have hc : isDigitCh c = true := all_digits_forall _ hd c (by simp)
  have hnd : ∀ x ∈ c :: rest, x ≠ '.' :=
    fun x hx => digit_ne x '.' (all_digits_forall _ hd x hx) (by decide)
  simp only [pyFloat, stripWs_eq_self _ hns]
  rw [if_neg (digit_ne c '-' hc (by decide)), if_neg (digit_ne c '+' hc (by decide))]
  simp only [pyFloatCore, pySplit1_no_sep '.' _ hnd]
  rw [digitsVal?_digits _ (by simp) hd]
  rfl

theorem pyFloat_frac (fs : List Char) (hd : fs.all isDigitCh = true) :
    pyFloat ('0' :: '.' :: fs) =
      some ((digitsToNat fs : PyRat) / (10 : PyRat) ^ fs.length) := by
  have hns : ∀ c ∈ ('0' :: '.' :: fs), isSpaceCh c = false := by
    intro c hc
    simp only [List.mem_cons] at hc
    rcases hc with rfl | rfl | hc
    · decide
    · decide
    · exact digit_not_space c (all_digits_forall fs hd c hc)
  simp only [pyFloat, stripWs_eq_self _ hns]
  rw [if_neg (by decide : ¬ ('0' : Char) = '-'), if_neg (by decide : ¬ ('0' : Char) = '+')]
  have hsp : pySplit1 '.' ('0' :: '.' :: fs) = (['0'], some fs) := by
    rw [pySplit1, if_neg (by decide : ¬ ('0' : Char) = '.'), pySplit1, if_pos rfl]
  simp only [pyFloatCore, hsp]
  rw [if_pos (by simp [hd]; decide)]
  have h0 : (digitsToNat ['0'] : PyRat) = 0 := rfl
  rw [h0, zero_qAdd_div]

/-- C2: for every well-formed duration string H:M:S or H:M:S.fff with each
field one or more digits, the parser returns exactly
hours*3600 + minutes*60 + seconds + 0.milliseconds. -/
theorem parse_wellformed_C2 (hs ms ss fs : List Char)
    (hhne : hs ≠ []) (hhd : hs.all isDigitCh = true)
    (hmne : ms ≠ []) (hmd : ms.all isDigitCh = true)
    (hsne : ss ≠ []) (hsd : ss.all isDigitCh = true)
    (_hfne : fs ≠ []) (hfd : fs.all isDigitCh = true) :
    time_to_seconds (PyVal.str (hs ++ ':' :: (ms ++ ':' :: ss))) =
      (digitsToNat hs : PyRat) * 3600 + (digitsToNat ms : PyRat) * 60 +
        (digitsToNat ss : PyRat) ∧
    time_to_seconds (PyVal.str (hs ++ ':' :: (ms ++ ':' :: (ss ++ '.' :: fs)))) =
      (digitsToNat hs : PyRat) * 3600 + (digitsToNat ms : PyRat) * 60 +
        (digitsToNat ss : PyRat) + (digitsToNat fs : PyRat) / (10 : PyRat) ^ fs.length := by
  have hcol : ∀ (l : List Char), l.all isDigitCh = true → ∀ c ∈ l, c ≠ ':' :=
    fun l hl c hc => digit_ne c ':' (all_digits_forall l hl c hc) (by decide)
  have hdot : ∀ (l : List Char), l.all isDigitCh = true → ∀ c ∈ l, c ≠ '.' :=
    fun l hl c hc => digit_ne c '.' (all_digits_forall l hl c hc) (by decide)
  constructor
  · have e1 : pySplitCh ':' (hs ++ ':' :: (ms ++ ':' :: ss)) =
        hs :: pySplitCh ':' (ms ++ ':' :: ss) := pySplitCh_append ':' hs _ (hcol hs hhd)
    have e2 : pySplitCh ':' (ms ++ ':' :: ss) = ms :: pySplitCh ':' ss :=
      pySplitCh_append ':' ms _ (hcol ms hmd)
    have e3 : pySplitCh ':' ss = [ss] := pySplitCh_no_sep ':' ss (hcol ss hsd)
    have e4 : pySplitCh '.' ss = [ss] := pySplitCh_no_sep '.' ss (hdot ss hsd)
    have hms0 : pyFloat ('0' :: '.' :: ['0']) = some 0 := by decide
    simp only [time_to_seconds, e1, e2, e3, e4, List.headD_cons, List.drop_succ_cons,
      List.drop_zero, List.headD_nil, pyInt_digits hs hhne hhd, pyInt_digits ms hmne hmd,
      pyFloat_digits ss hsne hsd, hms0]
    rw [qAdd_qAdd_zero]
    rfl
  · have hnc : ∀ c ∈ (ss ++ '.' :: fs), c ≠ ':' := by
      intro c hc
      rcases List.mem_append.mp hc with hc | hc
      · exact hcol ss hsd c hc
      · rcases List.mem_cons.mp hc with rfl | hc
        · decide
        · exact hcol fs hfd c hc
    have e1 : pySplitCh ':' (hs ++ ':' :: (ms ++ ':' :: (ss ++ '.' :: fs))) =
        hs :: pySplitCh ':' (ms ++ ':' :: (ss ++ '.' :: fs)) :=
      pySplitCh_append ':' hs _ (hcol hs hhd)
    have e2 : pySplitCh ':' (ms ++ ':' :: (ss ++ '.' :: fs)) =
        ms :: pySplitCh ':' (ss ++ '.' :: fs) := pySplitCh_append ':' ms _ (hcol ms hmd)
    have e3 : pySplitCh ':' (ss ++ '.' :: fs) = [ss ++ '.' :: fs] :=
      pySplitCh_no_sep ':' _ hnc
    have e4 : pySplitCh '.' (ss ++ '.' :: fs) = ss :: pySplitCh '.' fs :=
      pySplitCh_append '.' ss fs (hdot ss hsd)
    have e5 : pySplitCh '.' fs = [fs] := pySplitCh_no_sep '.' fs (hdot fs hfd)
    simp only [time_to_seconds, e1, e2, e3, e4, e5, List.headD_cons, List.drop_succ_cons,
      List.drop_zero, List.headD_cons, pyInt_digits hs hhne hhd, pyInt_digits ms hmne hmd,
      pyFloat_digits ss hsne hsd, pyFloat_frac fs hfd]
    rfl

/-- Witness for C2 at the spec example: parse("1:02:03.500") is 3723.5,
that is 7447/2. -/
theorem parse_wellformed_C2_witness :
    time_to_seconds (PyVal.str "1:02:03.500".toList) = ⟨7447, 2⟩ := by
  have h := (parse_wellformed_C2 ['1'] ['0', '2'] ['0', '3'] ['5', '0', '0']
    (by decide) (by decide) (by decide) (by decide)
    (by decide) (by decide) (by decide) (by decide)).2
  have e : "1:02:03.500".toList =
      ['1'] ++ ':' :: (['0', '2'] ++ ':' :: (['0', '3'] ++ '.' :: ['5', '0', '0'])) := by decide
  rw [e, h]; decide

/-- C3: malformed durations never raise and yield 0: a non-string value, a
string whose colon split does not have exactly three fields, or a string one
of whose components fails numeric parsing, all map to 0 (the model is a total
function, mirroring the bare except). -/
theorem parse_malformed_C3 :
    time_to_seconds PyVal.nonStr = 0 ∧
    (∀ t : List Char, (pySplitCh ':' t).length ≠ 3 → time_to_seconds (PyVal.str t) = 0) ∧
    (∀ t h m s0, pySplitCh ':' t = [h, m, s0] →
      (pyInt h = none ∨ pyInt m = none ∨
        pyFloat ((pySplitCh '.' s0).headD []) = none ∨
        pyFloat ('0' :: '.' :: ((pySplitCh '.' s0).drop 1).headD ['0']) = none) →
      time_to_seconds (PyVal.str t) = 0) := by
  refine ⟨rfl, ?_, ?_⟩
  · intro t hlen
    rcases hsp : pySplitCh ':' t with - | ⟨a, - | ⟨b, - | ⟨c, - | ⟨e, tl⟩⟩⟩⟩ <;>
      first
        | (exact absurd (by rw [hsp]; rfl) hlen)
        | simp [time_to_seconds, hsp]
  · intro t h m s0 hsp hbad
    simp only [time_to_seconds, hsp]
    rcases hph : pyInt h with - | hv <;>
      rcases hpm : pyInt m with - | mv <;>
      rcases hps : pyFloat ((pySplitCh '.' s0).headD []) with - | sv <;>
      rcases hpms : pyFloat ('0' :: '.' :: ((pySplitCh '.' s0).drop 1).headD ['0'])
        with - | msv <;>
      simp_all

/-- Witness for C3: a wrong field count, a non-numeric component and a
non-string input all give 0. -/
theorem parse_malformed_C3_witness :
    time_to_seconds (PyVal.str "ab".toList) = 0 ∧
    time_to_seconds (PyVal.str "a:b:c".toList) = 0 ∧
    time_to_seconds PyVal.nonStr = 0 := by
  refine ⟨?_, ?_, parse_malformed_C3.1⟩
  · exact parse_malformed_C3.2.1 "ab".toList (by decide)
  · exact parse_malformed_C3.2.2 "a:b:c".toList ['a'] ['b'] ['c'] (by decide)
      (Or.inl (by decide))

/-- C10: the parser's output is not guaranteed non-negative: a minus sign in
the hour component is accepted, so parse("-1:00:00") returns -3600 (a
negative value, not 0 and not an error). -/
theorem parse_negative_C10 :
    time_to_seconds (PyVal.str "-1:00:00".toList) = -3600 ∧
    (time_to_seconds (PyVal.str "-1:00:00".toList)).n < 0 := by
  constructor <;> decide

/-! ### Grouping: characterisation of the GA slot -/

theorem lookupG_insertRecord (gs : List (List Char × ConfigGroup)) (e : ExperimentRecord)
    (k : List Char) :
    lookupG (insertRecord gs e) k =
      if e.configuration = k then
        some (applyRecord e ((lookupG gs k).getD { pso := [], ga := none }))
      else lookupG gs k := by
  induction gs with
  | nil =>
    simp only [insertRecord, lookupG]
    split_ifs <;> simp_all [lookupG]
  | cons p ps ih =>
    by_cases hpe : p.1 = e.configuration
    · rw [insertRecord, if_pos hpe]
      by_cases hpk : p.1 = k
      · have he : e.configuration = k := hpe ▸ hpk
        rw [lookupG, if_pos hpk, if_pos he, lookupG, if_pos hpk]
        simp
      · have he : ¬ e.configuration = k := fun h => hpk (hpe.trans h)
        rw [lookupG, if_neg hpk, if_neg he, lookupG, if_neg hpk]
    · rw [insertRecord, if_neg hpe]
      by_cases hpk : p.1 = k
      · have he : ¬ e.configuration = k := fun h => hpe (hpk.trans h.symm)
        rw [lookupG, if_pos hpk, if_neg he, lookupG, if_pos hpk]
      · rw [lookupG, if_neg hpk, ih, lookupG, if_neg hpk]

theorem applyRecord_ga (e : ExperimentRecord) (g : ConfigGroup) :
    (applyRecord e g).ga =
      if e.algorithmType = algGenetic ∧ g.ga = none then some e else g.ga := by
  unfold applyRecord
  by_cases hpso : e.algorithmType = algPso
  · simp [hpso, (by decide : ¬ (algPso = algGenetic))]
  · by_cases hcond : e.algorithmType = algGenetic ∧ g.ga = none <;>
      simp [hpso, hcond, (by decide : ¬ (algGenetic = algPso))]

theorem lookupG_foldl_ga (records : List ExperimentRecord) :
    ∀ (gs : List (List Char × ConfigGroup)) (cfg : List Char),
    (lookupG (List.foldl insertRecord gs records) cfg).bind ConfigGroup.ga =
      ((lookupG gs cfg).bind ConfigGroup.ga).orElse
        (fun _ => records.find?
          (fun e => decide (e.configuration = cfg) && decide (e.algorithmType = algGenetic))) := by
  induction records with
  | nil =>
    intro gs cfg
    simp only [List.foldl_nil, List.find?_nil]
    cases (lookupG gs cfg).bind ConfigGroup.ga <;> rfl
  | cons e rest ih =>
    intro gs cfg
    rw [List.foldl_cons, ih (insertRecord gs e) cfg, lookupG_insertRecord]
    by_cases he : e.configuration = cfg
    · rw [if_pos he]
      have hfind : List.find?
          (fun e => decide (e.configuration = cfg) && decide (e.algorithmType = algGenetic))
          (e :: rest) =
          if e.algorithmType = algGenetic then some e
          else List.find?
            (fun e => decide (e.configuration = cfg) && decide (e.algorithmType = algGenetic))
            rest := by
        rw [List.find?_cons]
        by_cases hg : e.algorithmType = algGenetic <;> simp [he, hg]
      rw [hfind]
      cases hlk : lookupG gs cfg with
      | none =>
        by_cases hg : e.algorithmType = algGenetic <;>
          simp [hg, applyRecord_ga, Option.orElse]
      | some g =>
        cases hga : g.ga with
        | none =>
          by_cases hg : e.algorithmType = algGenetic <;>
            simp [hg, hga, applyRecord_ga, Option.orElse]
        | some x =>
          by_cases hg : e.algorithmType = algGenetic <;>
            simp [hg, hga, applyRecord_ga, Option.orElse]
    · rw [if_neg he]
      have hfind : List.find?
          (fun e => decide (e.configuration = cfg) && decide (e.algorithmType = algGenetic))
          (e :: rest) =
          List.find?
            (fun e => decide (e.configuration = cfg) && decide (e.algorithmType = algGenetic))
            rest := by
        rw [List.find?_cons]
        simp [he]
      rw [hfind]

/-- C5: for every record list and every configuration, the GA slot of that
configuration's bucket holds exactly the first record in input order whose
algorithm type is Genetic for that configuration; later Genetic records are
ignored, so the aggregate keeps the earlier record (and its makespan). -/
theorem ga_first_write_wins_C5 (records : List ExperimentRecord) (cfg : List Char) :
    (lookupG (groupRecords records) cfg).bind ConfigGroup.ga =
      records.find?
        (fun e => decide (e.configuration = cfg) && decide (e.algorithmType = algGenetic)) := by
  have h := lookupG_foldl_ga records [] cfg
  simpa [groupRecords, lookupG, Option.orElse] using h

/-! ### The stable insertion sort -/

theorem insertByKey_perm {α : Type} (key : α → Int) (x : α) (l : List α) :
    List.Perm (insertByKey key x l) (x :: l) := by
  induction l with
  | nil => exact List.Perm.refl _
  | cons y ys ih =>
    rw [insertByKey]
    by_cases h : key y < key x
    · rw [if_pos h]
      exact (ih.cons y).trans (List.Perm.swap x y ys)
    · rw [if_neg h]

theorem sortByKey_perm {α : Type} (key : α → Int) (l : List α) :
    List.Perm (sortByKey key l) l := by
  induction l with
  | nil => exact List.Perm.refl _
  | cons x xs ih =>
    rw [sortByKey]
    exact (insertByKey_perm key x (sortByKey key xs)).trans (ih.cons x)

theorem mem_sortByKey {α : Type} (key : α → Int) (l : List α) (x : α) :
    x ∈ sortByKey key l ↔ x ∈ l :=
  (sortByKey_perm key l).mem_iff

theorem insertByKey_pairwise {α : Type} (key : α → Int) (x : α) (l : List α)
    (h : l.Pairwise (fun a b => key a ≤ key b)) :
    (insertByKey key x l).Pairwise (fun a b => key a ≤ key b) := by
  induction l with
  | nil => exact List.pairwise_singleton _ _
  | cons y ys ih =>
    rw [insertByKey]
    rw [List.pairwise_cons] at h
    by_cases hk : key y < key x
    · rw [if_pos hk]
      rw [List.pairwise_cons]
      refine ⟨?_, ih h.2⟩
      intro z hz
      rcases List.mem_cons.mp ((insertByKey_perm key x ys).mem_iff.mp hz) with rfl | hz
      · exact le_of_lt hk
      · exact h.1 z hz
    · rw [if_neg hk]
      rw [List.pairwise_cons]
      refine ⟨?_, List.pairwise_cons.mpr h⟩
      intro z hz
      rcases List.mem_cons.mp hz with rfl | hz
      · exact not_lt.mp hk
      · exact le_trans (not_lt.mp hk) (h.1 z hz)

theorem sortByKey_pairwise {α : Type} (key : α → Int) (l : List α) :
    (sortByKey key l).Pairwise (fun a b => key a ≤ key b) := by
  induction l with
  | nil => simp [sortByKey]
  | cons x xs ih => exact insertByKey_pairwise key x _ ih

/-! ### Keys of the grouping map -/

theorem insertRecord_keys (gs : List (List Char × ConfigGroup)) (e : ExperimentRecord) :
    (insertRecord gs e).map Prod.fst =
      if e.configuration ∈ gs.map Prod.fst then gs.map Prod.fst
      else gs.map Prod.fst ++ [e.configuration] := by
  induction gs with
  | nil =>
    have hno : ¬ e.configuration ∈ List.map Prod.fst ([] : List (List Char × ConfigGroup)) := by
      rw [List.map_nil]; exact List.not_mem_nil _
    rw [if_neg hno]
    rfl
  | cons p ps ih =>
    by_cases hpe : p.1 = e.configuration
    · rw [insertRecord, if_pos hpe]
      have hmem : e.configuration ∈ List.map Prod.fst (p :: ps) :=
        List.mem_cons.mpr (Or.inl hpe.symm)
      rw [if_pos hmem]
      rfl
    · rw [insertRecord, if_neg hpe]
      by_cases hm : e.configuration ∈ ps.map Prod.fst
      · have hmem : e.configuration ∈ List.map Prod.fst (p :: ps) :=
          List.mem_cons.mpr (Or.inr hm)
        rw [if_pos hmem]
        rw [List.map_cons, List.map_cons, ih, if_pos hm]
      · have hmem : ¬ e.configuration ∈ List.map Prod.fst (p :: ps) := by
          intro hc
          rcases List.mem_cons.mp hc with hcc | hcc
          · exact hpe hcc.symm
          · exact hm hcc
        rw [if_neg hmem]
        rw [List.map_cons, List.map_cons, ih, if_neg hm]
        rfl

theorem mem_keys_foldl (records : List ExperimentRecord) :
    ∀ (gs : List (List Char × ConfigGroup)) (k : List Char),
    (k ∈ (List.foldl insertRecord gs records).map Prod.fst ↔
      k ∈ gs.map Prod.fst ∨ ∃ e ∈ records, e.configuration = k) := by
  induction records with
  | nil =>
    intro gs k
    rw [List.foldl_nil]
    constructor
    · exact Or.inl
    · rintro (h | ⟨e, he, -⟩)
      · exact h
      · exact absurd he (List.not_mem_nil e)
  | cons e rest ih =>
    intro gs k
    rw [List.foldl_cons, ih (insertRecord gs e) k]
    have hkeys : k ∈ (insertRecord gs e).map Prod.fst ↔
        k ∈ gs.map Prod.fst ∨ e.configuration = k := by
      rw [insertRecord_keys]
      by_cases hm : e.configuration ∈ gs.map Prod.fst
      · rw [if_pos hm]
        constructor
        · exact Or.inl
        · rintro (h | rfl)
          · exact h
          · exact hm
      · rw [if_neg hm]
        rw [List.mem_append, List.mem_singleton]
        constructor
        · rintro (h | rfl)
          · exact Or.inl h
          · exact Or.inr rfl
        · rintro (h | h)
          · exact Or.inl h
          · exact Or.inr h.symm
    rw [hkeys]
    simp only [List.mem_cons]
    constructor
    · rintro ((h | h) | ⟨e', he', hk⟩)
      · exact Or.inl h
      · exact Or.inr ⟨e, Or.inl rfl, h⟩
      · exact Or.inr ⟨e', Or.inr he', hk⟩
    · rintro (h | ⟨e', (rfl | he'), hk⟩)
      · exact Or.inl (Or.inl h)
      · exact Or.inl (Or.inr hk)
      · exact Or.inr ⟨e', he', hk⟩

theorem mem_keys_groupRecords (records : List ExperimentRecord) (k : List Char) :
    k ∈ (groupRecords records).map Prod.fst ↔ ∃ e ∈ records, e.configuration = k := by
  rw [groupRecords, mem_keys_foldl records [] k]
  constructor
  · rintro (h | h)
    · rw [List.map_nil] at h
      exact absurd h (List.not_mem_nil k)
    · exact h
  · exact Or.inr

/-! ### The preparation loop as maps over the sorted groups -/

theorem optionSomeBind {α β : Type} (x : α) (f : α → Option β) : (some x >>= f) = f x := rfl

theorem prepareStep_isSome (p0 : Prepared) (cg : List Char × ConfigGroup) (nm : List Char)
    (h : rowName cg.1 = some nm) : ∃ q, prepareStep p0 cg = some q := by
  simp only [prepareStep, h]
  cases hg : cg.2.ga <;> exact ⟨_, rfl⟩

theorem foldlM_prepareStep_none (gs : List (List Char × ConfigGroup)) :
    ∀ p0 : Prepared, (∃ cg ∈ gs, rowName cg.1 = none) →
    List.foldlM prepareStep p0 gs = none := by
  induction gs with
  | nil =>
    rintro p0 ⟨cg, h, -⟩
    exact absurd h (List.not_mem_nil cg)
  | cons cg rest ih =>
    rintro p0 ⟨cg', hmem, hnone⟩
    rw [List.foldlM_cons]
    rcases List.mem_cons.mp hmem with rfl | hmem'
    · simp [prepareStep, hnone]
    · cases hr : rowName cg.1 with
      | none => simp [prepareStep, hr]
      | some nm =>
        obtain ⟨q, hq⟩ := prepareStep_isSome p0 cg nm hr
        rw [hq]
        simpa using ih q ⟨cg', hmem', hnone⟩

theorem foldlM_prepareStep_eq (gs : List (List Char × ConfigGroup)) :
    ∀ p0 : Prepared, (∀ cg ∈ gs, (rowName cg.1).isSome = true) →
    List.foldlM prepareStep p0 gs = some
      { config_names := p0.config_names ++ gs.map (fun cg => (rowName cg.1).getD [])
        pso_avg_makespan :=
          p0.pso_avg_makespan ++ (gs.filter hasPsoB).map (fun cg => qMean (psoMs cg))
        pso_min_makespan :=
          p0.pso_min_makespan ++ (gs.filter hasPsoB).map (fun cg => qMinL (psoMs cg))
        pso_max_makespan :=
          p0.pso_max_makespan ++ (gs.filter hasPsoB).map (fun cg => qMaxL (psoMs cg))
        ga_makespan := p0.ga_makespan ++ gs.map gaMs
        pso_avg_time := p0.pso_avg_time ++ (gs.filter hasPsoB).map (fun cg => qMean (psoTs cg))
        pso_min_time := p0.pso_min_time ++ (gs.filter hasPsoB).map (fun cg => qMinL (psoTs cg))
        pso_max_time := p0.pso_max_time ++ (gs.filter hasPsoB).map (fun cg => qMaxL (psoTs cg))
        ga_time := p0.ga_time ++ gs.map gaTs
        task_counts := p0.task_counts ++ (gs.filter hasPsoB).map taskOfD } := by
  induction gs with
  | nil =>
    intro p0 h
    cases p0
    simp [List.foldlM_nil]
  | cons cg rest ih =>
    intro p0 h
    have hsome := h cg (List.mem_cons_self cg rest)
    obtain ⟨nm, hnm⟩ : ∃ nm, rowName cg.1 = some nm := Option.isSome_iff_exists.mp hsome
    have hrest : ∀ cg' ∈ rest, (rowName cg'.1).isSome = true :=
      fun cg' h' => h cg' (List.mem_cons_of_mem cg h')
    rw [List.foldlM_cons]
    by_cases hp : hasPsoB cg = true
    · cases hg : cg.2.ga with
      | some e =>
        simp only [prepareStep, hnm, hp, if_true, hg]
        rw [optionSomeBind, ih _ hrest]
        simp [List.filter_cons, hp, hg, hnm, gaMs, gaTs, List.append_assoc]
      | none =>
        simp only [prepareStep, hnm, hp, if_true, hg]
        rw [optionSomeBind, ih _ hrest]
        simp [List.filter_cons, hp, hg, hnm, gaMs, gaTs, List.append_assoc]
    · cases hg : cg.2.ga with
      | some e =>
        simp only [prepareStep, hnm, hp, if_false, hg]
        rw [optionSomeBind, ih _ hrest]
        simp [List.filter_cons, hp, hg, hnm, gaMs, gaTs, List.append_assoc]
      | none =>
        simp only [prepareStep, hnm, hp, if_false, hg]
        rw [optionSomeBind, ih _ hrest]
        simp [List.filter_cons, hp, hg, hnm, gaMs, gaTs, List.append_assoc]

/-! ### The configuration-key resolver precondition -/

/-- The resolver precondition of the specification: the key contains at
least one colon, and the ordinal token (the last whitespace token before the
first colon) parses as an integer (sortKey captures exactly that parse). -/
def goodKey (cfg : List Char) : Prop :=
  (pySplit1 ':' cfg).2.isSome = true ∧ (sortKey cfg).isSome = true

instance (cfg : List Char) : Decidable (goodKey cfg) :=
  inferInstanceAs (Decidable (_ ∧ _))

theorem rowName_isSome_of_goodKey (cfg : List Char) (h : goodKey cfg) :
    (rowName cfg).isSome = true := by
  obtain ⟨h1, h2⟩ := h
  cases hL : (pySplitWs ((pySplitCh ':' cfg).head?.getD [])).getLast? with
  | none => simp [sortKey, hL] at h2
  | some num =>
    cases hS : (pySplit1 ':' cfg).2 with
    | none => rw [hS] at h1; cases h1
    | some post => simp [rowName, hL, hS]

theorem rowName_none_of_no_colon (cfg : List Char)
    (h : (pySplit1 ':' cfg).2 = none) : rowName cfg = none := by
  cases hL : (pySplitWs ((pySplitCh ':' cfg).head?.getD [])).getLast? <;> simp [rowName, hL, h]

/-- C8: a record whose configuration key violates the resolver precondition
(no colon, or no integer-parsable ordinal token) makes the whole computation
fail (the model returns none, the script raises), and a key satisfying the
precondition always resolves: its row label and sort key both exist, and a
batch of well-keyed records is processed without error. -/
theorem key_resolution_C8 (records : List ExperimentRecord) (k : List Char) :
    ((∃ e ∈ records, ¬ goodKey e.configuration) → prepare records = none) ∧
    (goodKey k → (rowName k).isSome = true ∧ (sortKey k).isSome = true) ∧
    ((∀ e ∈ records, goodKey e.configuration) → (prepare records).isSome = true) := by
  refine ⟨?_, fun h => ⟨rowName_isSome_of_goodKey k h, h.2⟩, ?_⟩
  · rintro ⟨e, he, hbad⟩
    have hk : e.configuration ∈ (groupRecords records).map Prod.fst :=
      (mem_keys_groupRecords records e.configuration).mpr ⟨e, he, rfl⟩
    obtain ⟨cg, hcg, hfst⟩ := List.mem_map.mp hk
    by_cases hsk : (sortKey e.configuration).isSome = true
    · have hcol : (pySplit1 ':' e.configuration).2 = none := by
        cases hx : (pySplit1 ':' e.configuration).2 with
        | none => rfl
        | some post => exact absurd ⟨by rw [hx]; rfl, hsk⟩ hbad
      have hnone : rowName e.configuration = none := rowName_none_of_no_colon _ hcol
      unfold prepare
      cases hsc : sortedConfigs records with
      | none => rfl
      | some gs =>
        have hgs : gs = sortByKey sortKeyD (groupRecords records) := by
          unfold sortedConfigs at hsc
          by_cases hall :
              (groupRecords records).all (fun cg => (sortKey cg.1).isSome) = true
          · rw [if_pos hall] at hsc
            cases hsc
            rfl
          · rw [if_neg hall] at hsc
            cases hsc
        have hcg' : cg ∈ gs := by
          rw [hgs]
          exact (mem_sortByKey _ _ _).mpr hcg
        rw [Option.some_bind]
        exact foldlM_prepareStep_none gs emptyPrepared
          ⟨cg, hcg', by rw [hfst]; exact hnone⟩
    · unfold prepare
      have hsc : sortedConfigs records = none := by
        unfold sortedConfigs
        rw [if_neg]
        intro hall
        exact hsk (by
          have := List.all_eq_true.mp hall cg hcg
          rw [hfst] at this
          exact this)
      rw [hsc]
      rfl
  · intro hall
    have hallkeys : ∀ cg ∈ groupRecords records, goodKey cg.1 := by
      intro cg hcg
      have hmem : cg.1 ∈ (groupRecords records).map Prod.fst :=
        List.mem_map_of_mem Prod.fst hcg
      obtain ⟨e, he, hk⟩ := (mem_keys_groupRecords records cg.1).mp hmem
      rw [← hk]
      exact hall e he
    unfold prepare
    have hsc : sortedConfigs records = some (sortByKey sortKeyD (groupRecords records)) := by
      unfold sortedConfigs
      rw [if_pos (List.all_eq_true.mpr (fun cg hcg => (hallkeys cg hcg).2))]
    rw [hsc, Option.some_bind]
    rw [foldlM_prepareStep_eq _ emptyPrepared
      (fun cg hcg => rowName_isSome_of_goodKey _ (hallkeys cg ((mem_sortByKey _ _ _).mp hcg)))]
    rfl

/-- Witness for C8: a key without a colon is fatal for its batch, and a
well-formed key resolves and its batch is processed. -/
theorem key_resolution_C8_witness :
    prepare [{ configuration := "no colon".toList, algorithmType := algPso, makespan := 1,
               computationTime := PyVal.nonStr, taskCount := 1 }] = none ∧
    (prepare [{ configuration := "1: A".toList, algorithmType := algPso, makespan := 1,
                computationTime := PyVal.nonStr, taskCount := 1 }]).isSome = true ∧
    (rowName "1: A".toList).isSome = true ∧ (sortKey "1: A".toList).isSome = true := by
  refine ⟨?_, ?_, ?_⟩
  · exact (key_resolution_C8 _ []).1
      ⟨_, by exact List.mem_singleton.mpr rfl, by decide⟩
  · exact (key_resolution_C8 _ []).2.2 (by decide)
  · exact (key_resolution_C8 [] "1: A".toList).2.1 (by decide)

/-- C9: when no configuration bucket is formed (in particular for the empty
record list), the pipeline returns empty output lists and both derived
series are empty, with no failure. -/
theorem empty_input_C9 (records : List ExperimentRecord)
    (h : groupRecords records = []) :
    prepare records = some emptyPrepared ∧
    ratioSeries emptyPrepared = some [] ∧ taskSeries emptyPrepared = [] := by
  refine ⟨?_, by decide, by decide⟩
  unfold prepare
  have hsc : sortedConfigs records = some [] := by
    simp [sortedConfigs, h, sortByKey]
  rw [hsc, Option.some_bind]
  rfl

/-- Witness for C9 at the empty input. -/
theorem empty_input_C9_witness :
    prepare [] = some emptyPrepared ∧
    ratioSeries emptyPrepared = some [] ∧ taskSeries emptyPrepared = [] :=
  empty_input_C9 [] rfl

/-! ### Ordering and alignment of the prepared output -/

theorem sortedConfigs_eq_some (records : List ExperimentRecord)
    (gs : List (List Char × ConfigGroup)) (h : sortedConfigs records = some gs) :
    gs = sortByKey sortKeyD (groupRecords records) := by
  unfold sortedConfigs at h
  by_cases hall : (groupRecords records).all (fun cg => (sortKey cg.1).isSome) = true
  · rw [if_pos hall] at h
    cases h
    rfl
  · rw [if_neg hall] at h
    cases h

/-- C4 (amended): the output configuration sequence is nondecreasing in the
extracted ordinal for every input record list (hence for every permutation
of one); it is strictly increasing when the output ordinals are pairwise
distinct, but two distinct configuration strings sharing an ordinal yield
equal neighbouring ordinals, not a strict increase. -/
theorem output_ordering_C4 (records : List ExperimentRecord)
    (gs : List (List Char × ConfigGroup)) (h : sortedConfigs records = some gs) :
    (gs.map sortKeyD).Pairwise (· ≤ ·) ∧
    ((gs.map sortKeyD).Nodup → (gs.map sortKeyD).Pairwise (· < ·)) := by
  have hgs := sortedConfigs_eq_some records gs h
  subst hgs
  have hpw := sortByKey_pairwise sortKeyD (groupRecords records)
  have hle : ((sortByKey sortKeyD (groupRecords records)).map sortKeyD).Pairwise (· ≤ ·) :=
    List.pairwise_map.mpr hpw
  refine ⟨hle, fun hnd => ?_⟩
  exact (hle.and hnd).imp (fun hab => lt_of_le_of_ne hab.1 hab.2)

/-- Witness for C4 on a two-configuration batch with ordinals 1 and 2. -/
theorem output_ordering_C4_witness :
    (exMisGroups.map sortKeyD).Pairwise (· ≤ ·) ∧
    ((exMisGroups.map sortKeyD).Nodup → (exMisGroups.map sortKeyD).Pairwise (· < ·)) :=
  output_ordering_C4 exMis exMisGroups (by decide)

/-- Counterexample to C4 as stated: two distinct configurations with ordinal
1 give output ordinals [1, 1], neither pairwise distinct nor strictly
increasing. -/
theorem output_ordering_C4_cex :
    (sortedConfigs exDup).map (fun gs => gs.map sortKeyD) = some [1, 1] ∧
    (sortedConfigs exDup).map
      (fun gs => decide ((gs.map sortKeyD).Pairwise (fun a b => a < b))) = some false := by
  constructor <;> decide

/-- C1 (amended): every configuration group contributes a label and GA
makespan/time entry, while PSO statistics and the task count are appended
only for groups with at least one PSO trial; all ten output sequences are
maps over the same sorted group list (so equal-length and index-aligned)
exactly when every group has a PSO trial, and a GA-only group still
produces its label/GA entries, only shorter PSO/task sequences. -/
theorem aggregation_rows_C1 (records : List ExperimentRecord)
    (gs : List (List Char × ConfigGroup)) (p : Prepared)
    (hs : sortedConfigs records = some gs)
    (hrn : ∀ cg ∈ gs, (rowName cg.1).isSome = true)
    (hp : prepare records = some p) :
    (p.config_names = gs.map (fun cg => (rowName cg.1).getD []) ∧
     p.ga_makespan = gs.map gaMs ∧
     p.ga_time = gs.map gaTs ∧
     p.pso_avg_makespan = (gs.filter hasPsoB).map (fun cg => qMean (psoMs cg)) ∧
     p.pso_min_makespan = (gs.filter hasPsoB).map (fun cg => qMinL (psoMs cg)) ∧
     p.pso_max_makespan = (gs.filter hasPsoB).map (fun cg => qMaxL (psoMs cg)) ∧
     p.pso_avg_time = (gs.filter hasPsoB).map (fun cg => qMean (psoTs cg)) ∧
     p.pso_min_time = (gs.filter hasPsoB).map (fun cg => qMinL (psoTs cg)) ∧
     p.pso_max_time = (gs.filter hasPsoB).map (fun cg => qMaxL (psoTs cg)) ∧
     p.task_counts = (gs.filter hasPsoB).map taskOfD) ∧
    ((∀ cg ∈ gs, hasPsoB cg = true) → gs.filter hasPsoB = gs) := by
  unfold prepare at hp
  rw [hs, Option.some_bind, foldlM_prepareStep_eq gs emptyPrepared hrn] at hp
  have hx := Option.some.inj hp
  subst hx
  refine ⟨?_, fun hall => List.filter_eq_self.mpr hall⟩
  simp [emptyPrepared]

/-- Witness for C1 at the end-to-end example batch. -/
theorem aggregation_rows_C1_witness :
    (exSmallPrepared.config_names = exSmallGroups.map (fun cg => (rowName cg.1).getD []) ∧
     exSmallPrepared.ga_makespan = exSmallGroups.map gaMs ∧
     exSmallPrepared.ga_time = exSmallGroups.map gaTs ∧
     exSmallPrepared.pso_avg_makespan =
       (exSmallGroups.filter hasPsoB).map (fun cg => qMean (psoMs cg)) ∧
     exSmallPrepared.pso_min_makespan =
       (exSmallGroups.filter hasPsoB).map (fun cg => qMinL (psoMs cg)) ∧
     exSmallPrepared.pso_max_makespan =
       (exSmallGroups.filter hasPsoB).map (fun cg => qMaxL (psoMs cg)) ∧
     exSmallPrepared.pso_avg_time =
       (exSmallGroups.filter hasPsoB).map (fun cg => qMean (psoTs cg)) ∧
     exSmallPrepared.pso_min_time =
       (exSmallGroups.filter hasPsoB).map (fun cg => qMinL (psoTs cg)) ∧
     exSmallPrepared.pso_max_time =
       (exSmallGroups.filter hasPsoB).map (fun cg => qMaxL (psoTs cg)) ∧
     exSmallPrepared.task_counts = (exSmallGroups.filter hasPsoB).map taskOfD) ∧
    ((∀ cg ∈ exSmallGroups, hasPsoB cg = true) →
      exSmallGroups.filter hasPsoB = exSmallGroups) :=
  aggregation_rows_C1 exSmall exSmallGroups exSmallPrepared (by decide) (by decide) (by decide)

/-- Counterexample to C1 as stated: a batch whose single group holds only a
GA record still produces a label row and GA entries, so the output
sequences have unequal lengths (1, 1, 0, 0). -/
theorem aggregation_rows_C1_cex :
    (prepare exGaOnly).map
      (fun p => (p.config_names.length, p.ga_makespan.length,
        p.pso_avg_makespan.length, p.task_counts.length)) = some (1, 1, 0, 0) := by
  decide

/-! ### The derived series -/

/-- C6 (amended): provided every configuration group has at least one PSO
trial (so the PSO-mean and GA arrays are aligned), the quality-ratio series
holds exactly one entry psoMean/gaMakespan for each configuration whose GA
value is present, in configuration order; configurations without a GA value
contribute nothing. -/
theorem ratio_series_C6 (records : List ExperimentRecord)
    (gs : List (List Char × ConfigGroup)) (p : Prepared)
    (hs : sortedConfigs records = some gs)
    (hrn : ∀ cg ∈ gs, (rowName cg.1).isSome = true)
    (hp : prepare records = some p)
    (hpso : ∀ cg ∈ gs, hasPsoB cg = true) :
    ratioSeries p =
      some (gs.filterMap (fun cg => (gaMs cg).map (fun g => qMean (psoMs cg) / g))) := by
  unfold prepare at hp
  rw [hs, Option.some_bind, foldlM_prepareStep_eq gs emptyPrepared hrn] at hp
  have hx := Option.some.inj hp
  have hfil : gs.filter hasPsoB = gs := List.filter_eq_self.mpr hpso
  have hA : p.pso_avg_makespan = gs.map (fun cg => qMean (psoMs cg)) := by
    rw [← hx]; simp [emptyPrepared, hfil]
  have hG : p.ga_makespan = gs.map gaMs := by
    rw [← hx]; simp [emptyPrepared]
  unfold ratioSeries
  rw [hA, hG]
  rw [if_pos (by simp)]
  rw [List.zip_map']
  rw [List.filterMap_map]
  rfl

/-- Witness for C6 at the end-to-end example batch (ratio 110/90 = 11/9). -/
theorem ratio_series_C6_witness :
    ratioSeries exSmallPrepared =
      some (exSmallGroups.filterMap
        (fun cg => (gaMs cg).map (fun g => qMean (psoMs cg) / g))) :=
  ratio_series_C6 exSmall exSmallGroups exSmallPrepared
    (by decide) (by decide) (by decide) (by decide)

/-- Counterexample to C6 as stated: with a GA-only first group, the second
group has PSO trials and a GA value yet no ratio series is produced at all
(the mask length differs from the PSO array length, an IndexError). -/
theorem ratio_series_C6_cex :
    (prepare exMis).isSome = true ∧
    (prepare exMis).bind ratioSeries = none ∧
    (sortedConfigs exMis).map
      (fun gs => gs.map (fun cg => (hasPsoB cg, (gaMs cg).isSome))) =
      some [(false, true), (true, true)] := by
  refine ⟨by decide, by decide, by decide⟩

theorem firstIdx_spec (v : Nat) (l : List Nat) (h : v ∈ l) :
    firstIdx v l < l.length ∧ l.getD (firstIdx v l) 0 = v ∧
      ∀ j < firstIdx v l, l.getD j 0 ≠ v := by
  induction l with
  | nil => exact absurd h (List.not_mem_nil v)
  | cons x xs ih =>
    by_cases hx : x = v
    · rw [firstIdx, if_pos hx]
      exact ⟨by simp, by simpa using hx, by omega⟩
    · have hv : v ∈ xs := by
        rcases List.mem_cons.mp h with h' | h'
        · exact absurd h'.symm hx
        · exact h'
      obtain ⟨ih1, ih2, ih3⟩ := ih hv
      rw [firstIdx, if_neg hx]
      refine ⟨by simpa using Nat.succ_lt_succ ih1, by simpa using ih2, ?_⟩
      intro j hj
      cases j with
      | zero => simpa using hx
      | succ j' => simpa using ih3 j' (Nat.lt_of_succ_lt_succ hj)

theorem getD_map_of_lt {α β : Type} (f : α → β) (l : List α) (i : Nat) (d : β) (dα : α)
    (h : i < l.length) : (l.map f).getD i d = f (l.getD i dα) := by
  induction l generalizing i with
  | nil => simp at h
  | cons x xs ih =>
    cases i with
    | zero => rfl
    | succ i' => simpa using ih i' (by simpa using h)

/-- C7 (amended): provided every configuration group has at least one PSO
trial (so the index arrays are aligned), the task-count series has exactly
one entry per distinct taskCount value (its first components are the sorted
distinct task counts, without duplicates), and the entry for a value v is
the pair (PSO mean makespan, GA makespan or missing) of the first
configuration in sorted order whose taskCount is v; later configurations
sharing v are dropped. -/
theorem task_series_C7 (records : List ExperimentRecord)
    (gs : List (List Char × ConfigGroup)) (p : Prepared)
    (hs : sortedConfigs records = some gs)
    (hrn : ∀ cg ∈ gs, (rowName cg.1).isSome = true)
    (hp : prepare records = some p)
    (hpso : ∀ cg ∈ gs, hasPsoB cg = true) :
    (taskSeries p).map (fun e => e.1) = natSorted (gs.map taskOfD).dedup ∧
    ((taskSeries p).map (fun e => e.1)).Nodup ∧
    (∀ v ∈ natSorted (gs.map taskOfD).dedup,
      firstIdx v (gs.map taskOfD) < gs.length ∧
      (∀ j < firstIdx v (gs.map taskOfD),
        taskOfD (gs.getD j ([], { pso := [], ga := none })) ≠ v) ∧
      taskOfD (gs.getD (firstIdx v (gs.map taskOfD)) ([], { pso := [], ga := none })) = v ∧
      (v,
       qMean (psoMs (gs.getD (firstIdx v (gs.map taskOfD)) ([], { pso := [], ga := none }))),
       gaMs (gs.getD (firstIdx v (gs.map taskOfD)) ([], { pso := [], ga := none })))
        ∈ taskSeries p) := by
  unfold prepare at hp
  rw [hs, Option.some_bind, foldlM_prepareStep_eq gs emptyPrepared hrn] at hp
  have hx := Option.some.inj hp
  have hfil : gs.filter hasPsoB = gs := List.filter_eq_self.mpr hpso
  have hT : p.task_counts = gs.map taskOfD := by
    rw [← hx]; simp [emptyPrepared, hfil]
  have hA : p.pso_avg_makespan = gs.map (fun cg => qMean (psoMs cg)) := by
    rw [← hx]; simp [emptyPrepared, hfil]
  have hG : p.ga_makespan = gs.map gaMs := by
    rw [← hx]; simp [emptyPrepared]
  have htask : taskSeries p = (natSorted (gs.map taskOfD).dedup).map (fun v =>
      ((gs.map taskOfD).getD (firstIdx v (gs.map taskOfD)) 0,
       (gs.map (fun cg => qMean (psoMs cg))).getD (firstIdx v (gs.map taskOfD)) 0,
       (gs.map gaMs).getD (firstIdx v (gs.map taskOfD)) none)) := by
    unfold taskSeries
    rw [hT, hA, hG]
  have hfst : ∀ v ∈ natSorted (gs.map taskOfD).dedup,
      ((gs.map taskOfD).getD (firstIdx v (gs.map taskOfD)) 0) = v := by
    intro v hv
    have hvmem : v ∈ gs.map taskOfD := List.mem_dedup.mp ((mem_sortByKey _ _ _).mp hv)
    exact (firstIdx_spec v _ hvmem).2.1
  have hmapfst : (taskSeries p).map (fun e => e.1) = natSorted (gs.map taskOfD).dedup := by
    rw [htask, List.map_map]
    exact (List.map_congr_left (fun v hv => hfst v hv)).trans (List.map_id _)
  refine ⟨hmapfst, ?_, ?_⟩
  · rw [hmapfst]
    exact ((sortByKey_perm _ _).nodup_iff).mpr (List.nodup_dedup _)
  · intro v hv
    have hvmem : v ∈ gs.map taskOfD := List.mem_dedup.mp ((mem_sortByKey _ _ _).mp hv)
    obtain ⟨hlt, hget, hmin⟩ := firstIdx_spec v _ hvmem
    have hlt' : firstIdx v (gs.map taskOfD) < gs.length := by
      rw [← List.length_map gs taskOfD]
      exact hlt
    refine ⟨hlt', ?_, ?_, ?_⟩
    · intro j hj
      have hjl : j < gs.length := lt_trans hj hlt'
      have := hmin j hj
      rw [getD_map_of_lt taskOfD gs j 0 ([], { pso := [], ga := none }) hjl] at this
      exact this
    · have := hget
      rw [getD_map_of_lt taskOfD gs _ 0 ([], { pso := [], ga := none }) hlt'] at this
      exact this
    · rw [htask]
      refine List.mem_map.mpr ⟨v, hv, ?_⟩
      rw [hget,
        getD_map_of_lt (fun cg => qMean (psoMs cg)) gs _ 0
          ([], { pso := [], ga := none }) hlt',
        getD_map_of_lt gaMs gs _ none ([], { pso := [], ga := none }) hlt']

/-- Witness for C7 at the end-to-end example batch. -/
theorem task_series_C7_witness :
    (taskSeries exSmallPrepared).map (fun e => e.1) =
      natSorted (exSmallGroups.map taskOfD).dedup ∧
    ((taskSeries exSmallPrepared).map (fun e => e.1)).Nodup ∧
    (∀ v ∈ natSorted (exSmallGroups.map taskOfD).dedup,
      firstIdx v (exSmallGroups.map taskOfD) < exSmallGroups.length ∧
      (∀ j < firstIdx v (exSmallGroups.map taskOfD),
        taskOfD (exSmallGroups.getD j ([], { pso := [], ga := none })) ≠ v) ∧
      taskOfD (exSmallGroups.getD (firstIdx v (exSmallGroups.map taskOfD))
        ([], { pso := [], ga := none })) = v ∧
      (v,
       qMean (psoMs (exSmallGroups.getD (firstIdx v (exSmallGroups.map taskOfD))
         ([], { pso := [], ga := none }))),
       gaMs (exSmallGroups.getD (firstIdx v (exSmallGroups.map taskOfD))
         ([], { pso := [], ga := none })))
        ∈ taskSeries exSmallPrepared) :=
  task_series_C7 exSmall exSmallGroups exSmallPrepared
    (by decide) (by decide) (by decide) (by decide)

/-- Counterexample to C7 as stated: with a GA-only first group, the entry
for task count 5 pairs the second configuration's PSO mean 100 with the
first configuration's GA value 50, although the first (and only)
configuration with task count 5 has GA makespan 90. -/
theorem task_series_C7_cex :
    (prepare exMis).map taskSeries = some [(5, ⟨100, 1⟩, some ⟨50, 1⟩)] ∧
    (sortedConfigs exMis).map (fun gs => gs.map (fun cg => (taskOfD cg, gaMs cg))) =
      some [(0, some ⟨50, 1⟩), (5, some ⟨90, 1⟩)] := by
  constructor <;> decide
